import Mathlib

/-!
Verification of the hybrid retrieval and ranking engine of the
sola-scriptura-search-api repository.

The development shallowly embeds the Go source:

* `internal/services/vector_search.go` — tokenizer, semantic search,
  keyword topic search (`tokenizeWords`, `SearchVerses`,
  `SearchVersesCitations`, `SearchTopics`);
* the services file carrying `GetTopicCard` and `preferredSources`
  (topic-card selection policy);
* `internal/handlers/search.go` — the `SemanticSearch` and `HybridSearch`
  HTTP handlers (request validation, limit clamping, failure policy);
* `internal/repository/postgres/topic_repo.go` — the SQL keyword-scoring
  expression of `SearchByWords` (CASE/GREATEST over per-keyword matches);
* `internal/models/search.go` — the response DTOs together with their
  JSON struct tags (`omitempty` field-presence semantics).

Go strings are modelled as `List Char` (ASCII-faithful), float64 scores as
`ℚ` (the engine only compares and maximises scores — no float arithmetic is
performed), Go `int` as `Int`, and fallible calls as `Except String`.
External collaborators (embedding service, vector store, topic repository)
are oracles passed explicitly; every service/handler function additionally
returns the list of port calls it performed, in program order, so that
"channel never invoked" and sequencing properties can be stated.
-/

/-- Go strings, modelled as their character sequences (ASCII-faithful). -/
abbrev Str := List Char

/-- ASCII lowercasing of one character, as `strings.ToLower` acts on ASCII. -/
def toLowerChar (c : Char) : Char :=
  if 'A' ≤ c ∧ c ≤ 'Z' then Char.ofNat (c.toNat + 32) else c

/-- Lowercase a whole string (SQL `LOWER`, Go `strings.ToLower`, ASCII range). -/
def strToLower (s : Str) : Str := s.map toLowerChar

/-- The rune predicate of `tokenizeWords` in vector_search.go:
a character is part of a word iff it is an ASCII letter or digit. -/
def isWordChar (c : Char) : Bool :=
  ('a' ≤ c && c ≤ 'z') || ('A' ≤ c && c ≤ 'Z') || ('0' ≤ c && c ≤ '9')

/-- Accumulator-based splitter behind `fieldsFunc`. -/
def fieldsFuncAux : Str → Str → List Str
  | acc, [] => if acc.isEmpty then [] else [acc.reverse]
  | acc, c :: cs =>
    if isWordChar c then fieldsFuncAux (c :: acc) cs
    else if acc.isEmpty then fieldsFuncAux [] cs
    else acc.reverse :: fieldsFuncAux [] cs

/-- Go `strings.FieldsFunc` specialised to the word/separator predicate of
`tokenizeWords`: maximal runs of letter/digit characters, no empty fields. -/
def fieldsFunc (s : Str) : List Str := fieldsFuncAux [] s

/-- The `stopWords` map of vector_search.go (keys, as a list). -/
def stopWords : List Str :=
  ["the".toList, "and".toList, "for".toList, "that".toList, "with".toList,
   "this".toList, "are".toList, "but".toList, "not".toList, "you".toList,
   "all".toList, "was".toList, "his".toList, "her".toList, "from".toList,
   "they".toList, "have".toList, "had".toList, "been".toList, "were".toList,
   "will".toList, "would".toList, "could".toList, "should".toList, "shall".toList,
   "unto".toList, "them".toList, "which".toList, "there".toList, "their".toList,
   "when".toList, "then".toList, "than".toList, "into".toList, "upon".toList]

/-- `tokenizeWords` (vector_search.go): lowercase, split on non-alphanumeric
characters, keep words of length ≥ 2 that are not stop words. -/
def tokenizeWords (query : Str) : List Str :=
  let words := fieldsFunc (strToLower query)
  words.filter (fun w => 2 ≤ w.length && !(stopWords.contains w))

/-- SQL `LIKE` pattern matching (`%` matches any sequence, `_` any single
character; the patterns built by topic_repo.go contain no escape sequences). -/
def likeMatch : Str → Str → Bool
  | s, [] => s.isEmpty
  | s, w :: p =>
    if w = '%' then
      likeMatch s p ||
        (match s with
         | [] => false
         | _ :: s2 => likeMatch s2 (w :: p))
    else
      match s with
      | [] => false
      | c :: s2 => (w = '_' || c = w) && likeMatch s2 p
termination_by s p => (p.length, s.length)

/-- SQL `ILIKE`: case-insensitive `LIKE`. -/
def ilike (s pat : Str) : Bool := likeMatch (strToLower s) (strToLower pat)

/-- SQL `TRIM(t FROM s)`: strip every leading and trailing occurrence of `t`. -/
def trimChar (t : Char) (s : Str) : Str :=
  ((s.dropWhile (· = t)).reverse.dropWhile (· = t)).reverse

/-- models.Citation (internal/models/search.go). -/
structure Citation where
  verseID : String
  text : String
  book : String
  chapter : Int
  verse : Int
  relevanceScore : Option ℚ
deriving DecidableEq, Repr

/-- models.ScoredVerse. -/
structure ScoredVerse where
  verseID : String
  book : String
  chapter : Int
  verse : Int
  text : String
  score : ℚ
deriving DecidableEq, Repr

/-- models.Topic. -/
structure Topic where
  topicID : String
  name : String
  source : String
  category : String
  chapterRefs : List String
deriving DecidableEq, Repr

/-- models.TopicSearchResult. -/
structure TopicSearchResult where
  topic : Topic
  score : ℚ
  verseCount : Int
  category : String
deriving DecidableEq, Repr

/-- models.ScoredTopic. -/
structure ScoredTopic where
  topicID : String
  name : String
  source : String
  category : String
  chapterRefs : List String
  verseCount : Int
  score : ℚ
  matchedWords : List String
deriving DecidableEq, Repr

/-- models.TopicCard. -/
structure TopicCard where
  topicID : String
  name : String
  category : String
  source : String
  verseCount : Int
  score : ℚ
  topVerses : List Citation
deriving DecidableEq, Repr

/-- models.SemanticSearchRequest (query as character list). -/
structure SemanticSearchRequest where
  query : Str
  limit : Int
deriving DecidableEq, Repr

/-- models.SemanticSearchResponse. -/
structure SemanticSearchResponse where
  query : Str
  results : List Citation
deriving DecidableEq, Repr

/-- models.HybridSearchRequest. -/
structure HybridSearchRequest where
  query : Str
  verseLimit : Int
  topicLimit : Int
deriving DecidableEq, Repr

/-- models.ResourceMatches. -/
structure ResourceMatches where
  topics : List ScoredTopic
deriving DecidableEq, Repr

/-- models.SemanticMatches. -/
structure SemanticMatches where
  verses : List Citation
deriving DecidableEq, Repr

/-- models.HybridSearchResponse; the Go `TopicCard *TopicCard` pointer field
becomes an `Option`. -/
structure HybridSearchResponse where
  query : Str
  topicCard : Option TopicCard
  resourceMatches : ResourceMatches
  semanticMatches : SemanticMatches
deriving DecidableEq, Repr

/-- One call through a retrieval port, recorded in program order. -/
inductive Call
  | embedQuery (query : Str)
  | searchVersesByEmbedding (embedding : List ℚ) (topK : Int)
  | searchByWords (words : List Str) (topK : Int)
deriving DecidableEq, Repr

/-- The external collaborators of the service (embedder, vector store,
topic repository), as oracle functions. -/
structure Ports where
  embedQuery : Str → Except String (List ℚ)
  searchVersesByEmbedding : List ℚ → Int → Except String (List ScoredVerse)
  searchByWords : List Str → Int → Except String (List TopicSearchResult)

/-- `VectorSearchService.SearchVerses`: embed the query, then run the vector
search; an embedding failure is returned without calling the vector store. -/
def SearchVerses (p : Ports) (query : Str) (topK : Int) :
    Except String (List ScoredVerse) × List Call :=
  match p.embedQuery query with
  | .error e => (.error e, [.embedQuery query])
  | .ok emb =>
      (p.searchVersesByEmbedding emb topK,
       [.embedQuery query, .searchVersesByEmbedding emb topK])

/-- The per-verse projection inside `SearchVersesCitations`: the similarity
score is attached as the citation's relevance score. -/
def citationOfScoredVerse (v : ScoredVerse) : Citation :=
  { verseID := v.verseID
    text := v.text
    book := v.book
    chapter := v.chapter
    verse := v.verse
    relevanceScore := some v.score }

/-- `VectorSearchService.SearchVersesCitations`. -/
def SearchVersesCitations (p : Ports) (query : Str) (topK : Int) :
    Except String (List Citation) × List Call :=
  match SearchVerses p query topK with
  | (.error e, log) => (.error e, log)
  | (.ok verses, log) => (.ok (verses.map citationOfScoredVerse), log)

/-- The per-result projection inside `SearchTopics`
(internal/services/vector_search.go; the `Category` field is left at its
zero value there). -/
def scoredTopicOfResult (r : TopicSearchResult) : ScoredTopic :=
  { topicID := r.topic.topicID
    name := r.topic.name
    source := r.topic.source
    category := ""
    chapterRefs := r.topic.chapterRefs
    verseCount := r.verseCount
    score := r.score
    matchedWords := [] }

/-- `VectorSearchService.SearchTopics`: tokenize; when no token survives,
return the empty topic list at once (the repository is not consulted). -/
def SearchTopics (p : Ports) (query : Str) (topK : Int) :
    Except String (List ScoredTopic) × List Call :=
  let words := tokenizeWords query
  if words.isEmpty then (.ok [], [])
  else
    match p.searchByWords words topK with
    | .error e => (.error e, [.searchByWords words topK])
    | .ok rs => (.ok (rs.map scoredTopicOfResult), [.searchByWords words topK])

/-- The `preferredSources` priority list of the topic-card selector
(most preferred first). -/
def preferredSources : List String :=
  ["claude_4.5_opus", "torreys_topical_textbook", "naves_topical_bible"]

/-- The first pass of `GetTopicCard`: outer loop over `preferredSources` in
order, inner loop over `topics` in their given order, first topic whose
source equals the preferred source and whose score ≥ `minScore`. -/
def findPreferredTopic (topics : List ScoredTopic) (minScore : ℚ) :
    Option ScoredTopic :=
  preferredSources.findSome? fun src =>
    topics.find? fun t => t.source == src && decide (minScore ≤ t.score)

/-- `VectorSearchService.GetTopicCard`: select at most one topic (preferred
sources first, else `topics[0]` when it clears `minScore`), then fetch its
verses through the repository; a fetch failure is propagated. -/
def GetTopicCard (getTopicVerses : String → Int → Except String (List Citation))
    (topics : List ScoredTopic) (minScore : ℚ) (verseLimit : Int) :
    Except String (Option TopicCard) :=
  if topics = [] then .ok none
  else
    let selected : Option ScoredTopic :=
      match findPreferredTopic topics minScore with
      | some t => some t
      | none =>
          match topics.head? with
          | some t0 => if minScore ≤ t0.score then some t0 else none
          | none => none
    match selected with
    | none => .ok none
    | some t =>
        match getTopicVerses t.topicID verseLimit with
        | .error e => .error e
        | .ok verses =>
            .ok (some
              { topicID := t.topicID
                name := t.name
                category := t.category
                source := t.source
                verseCount := t.verseCount
                score := t.score
                topVerses := verses })

/-- The handler error values (echo.NewHTTPError status + message). -/
inductive HTTPError
  | badRequest (msg : String)
  | internalServerError (msg : String)
deriving DecidableEq, Repr

/-- The limit clamp of `SemanticSearch` (internal/handlers/search.go):
`if limit <= 0 || limit > 50 { limit = 10 }`. -/
def resolveSemanticLimit (l : Int) : Int := if l ≤ 0 ∨ 50 < l then 10 else l

/-- The verse-limit clamp of `HybridSearch`:
`if verseLimit <= 0 || verseLimit > 50 { verseLimit = 10 }`. -/
def resolveVerseLimit (l : Int) : Int := if l ≤ 0 ∨ 50 < l then 10 else l

/-- The topic-limit clamp of `HybridSearch`:
`if topicLimit <= 0 || topicLimit > 50 { topicLimit = 5 }`. -/
def resolveTopicLimit (l : Int) : Int := if l ≤ 0 ∨ 50 < l then 5 else l

/-- `SearchHandler.SemanticSearch` (internal/handlers/search.go): reject the
empty query, clamp the limit to the default 10 outside [1,50], run the
semantic channel, surface its failure as an internal error. -/
def SemanticSearch (p : Ports) (req : SemanticSearchRequest) :
    Except HTTPError SemanticSearchResponse × List Call :=
  if req.query = [] then (.error (.badRequest "Query is required"), [])
  else
    match SearchVersesCitations p req.query (resolveSemanticLimit req.limit) with
    | (.error e, log) =>
        (.error (.internalServerError ("Search failed: " ++ e)), log)
    | (.ok citations, log) =>
        (.ok { query := req.query, results := citations }, log)

/-- `SearchHandler.HybridSearch`: reject the empty query, clamp both limits
(10 verses / 5 topics), run the semantic channel (failure is fatal), then the
keyword channel (failure degrades to an empty topic list); the response
struct literal never sets `TopicCard`, so the card stays `none`. -/
def HybridSearch (p : Ports) (req : HybridSearchRequest) :
    Except HTTPError HybridSearchResponse × List Call :=
  if req.query = [] then (.error (.badRequest "Query is required"), [])
  else
    match SearchVersesCitations p req.query (resolveVerseLimit req.verseLimit) with
    | (.error e, log) =>
        (.error (.internalServerError ("Search failed: " ++ e)), log)
    | (.ok citations, log1) =>
        let tr := SearchTopics p req.query (resolveTopicLimit req.topicLimit)
        let topics := match tr.1 with
          | .error _ => []
          | .ok ts => ts
        (.ok { query := req.query
               topicCard := none
               resourceMatches := { topics := topics }
               semanticMatches := { verses := citations } },
         log1 ++ tr.2)

/-- One row of `api_views.mv_topics_summary` as consumed by the scoring SQL of
`TopicRepository.SearchByWords` (topic_repo.go): the matched columns `topic`,
`sub_topic`, `name` as text, plus the projected metadata. -/
structure TopicsSummaryRow where
  topic_id : String
  name : Str
  topic : Str
  sub_topic : Str
  source : Option String
  category : Option String
  verse_count : Int
deriving DecidableEq, Repr

/-- The SQL argument bound for a keyword: `"%" + word + "%"`. -/
def wordPattern (w : Str) : Str := '%' :: (w ++ ['%'])

/-- The per-keyword `CASE` expression of the scoring SQL in
`SearchByWords` (topic_repo.go), branch for branch:
exact topic 1.0, topic prefix 0.95, exact sub_topic 0.9,
topic/sub_topic `ILIKE` 0.85, name `ILIKE` 0.7, else 0. -/
def sqlCaseScore (row : TopicsSummaryRow) (w : Str) : ℚ :=
  let arg := wordPattern w
  let trimmed := strToLower (trimChar '%' arg)
  if strToLower row.topic = trimmed then 1
  else if likeMatch (strToLower row.topic) (trimmed ++ ['%']) then 95/100
  else if strToLower row.sub_topic = trimmed then 9/10
  else if ilike row.topic arg || ilike row.sub_topic arg then 85/100
  else if ilike row.name arg then 7/10
  else 0

/-- `GREATEST` over the per-keyword `CASE` expressions (the query is built
only for a non-empty keyword list). -/
def sqlGreatestScore (row : TopicsSummaryRow) : List Str → ℚ
  | [] => 0
  | [w] => sqlCaseScore row w
  | w :: ws => max (sqlCaseScore row w) (sqlGreatestScore row ws)

/-- From the spec's words: a single keyword's score contribution is the
maximum of 1.0 for an exact case-insensitive primary-label match, 0.95 for a
label-prefix match, 0.9 for an exact secondary-label match, 0.85 for a
substring match of either label field, 0.7 for a substring match of the
display name, and 0 otherwise. -/
def keywordContribution (row : TopicsSummaryRow) (w : Str) : ℚ :=
  max (if strToLower row.topic = strToLower w then 1 else 0)
    (max (if strToLower w <+: strToLower row.topic then 95/100 else 0)
      (max (if strToLower row.sub_topic = strToLower w then 9/10 else 0)
        (max (if strToLower w <:+: strToLower row.topic ∨
                 strToLower w <:+: strToLower row.sub_topic then 85/100 else 0)
          (if strToLower w <:+: strToLower row.name then 7/10 else 0))))

/-- A keyword as the tokenizer produces it: non-empty, all characters
lowercase ASCII letters or digits. -/
def goodWord (w : Str) : Prop :=
  w ≠ [] ∧ ∀ c ∈ w, ('a' ≤ c ∧ c ≤ 'z') ∨ ('0' ≤ c ∧ c ≤ '9')

instance (w : Str) : Decidable (goodWord w) := by
  unfold goodWord; infer_instance

/-- The JSON values produced by `encoding/json`, with object fields in
declaration order (an omitted `omitempty` field is simply absent). -/
inductive Json
  | null
  | str (s : String)
  | num (q : ℚ)
  | int (n : Int)
  | bool (b : Bool)
  | arr (elems : List Json)
  | obj (fields : List (String × Json))

/-- JSON encoding of `models.Citation`; `relevance_score` carries
`omitempty` and is dropped when the pointer is nil. -/
def encodeCitation (c : Citation) : Json :=
  .obj ([("verse_id", .str c.verseID), ("text", .str c.text),
         ("book", .str c.book), ("chapter", .int c.chapter),
         ("verse", .int c.verse)] ++
    (match c.relevanceScore with
     | none => []
     | some q => [("relevance_score", .num q)]))

/-- JSON encoding of `models.ScoredTopic`; `category`, `chapter_refs` and
`matched_words` carry `omitempty`. -/
def encodeScoredTopic (t : ScoredTopic) : Json :=
  .obj ([("topic_id", .str t.topicID), ("name", .str t.name),
         ("source", .str t.source)] ++
    (if t.category = "" then [] else [("category", .str t.category)]) ++
    (if t.chapterRefs = [] then []
     else [("chapter_refs", .arr (t.chapterRefs.map .str))]) ++
    [("verse_count", .int t.verseCount), ("score", .num t.score)] ++
    (if t.matchedWords = [] then []
     else [("matched_words", .arr (t.matchedWords.map .str))]))

/-- JSON encoding of `models.TopicCard`; `category` and `source` carry
`omitempty`, `top_verses` does not. -/
def encodeTopicCard (c : TopicCard) : Json :=
  .obj ([("topic_id", .str c.topicID), ("name", .str c.name)] ++
    (if c.category = "" then [] else [("category", .str c.category)]) ++
    (if c.source = "" then [] else [("source", .str c.source)]) ++
    [("verse_count", .int c.verseCount), ("score", .num c.score),
     ("top_verses", .arr (c.topVerses.map encodeCitation))])

/-- JSON encoding of `models.ResourceMatches`: the `topics` field carries
`omitempty`, so an empty topic list leaves the object without the field. -/
def encodeResourceMatches (rm : ResourceMatches) : Json :=
  .obj (if rm.topics = [] then []
        else [("topics", .arr (rm.topics.map encodeScoredTopic))])

/-- JSON encoding of `models.SemanticMatches`: `verses` has no `omitempty`
and is always emitted. -/
def encodeSemanticMatches (sm : SemanticMatches) : Json :=
  .obj [("verses", .arr (sm.verses.map encodeCitation))]

/-- JSON encoding of `models.HybridSearchResponse`; `topic_card` carries
`omitempty` (nil pointer ⇒ absent). -/
def encodeHybridSearchResponse (r : HybridSearchResponse) : Json :=
  .obj ([("query", .str (String.mk r.query))] ++
    (match r.topicCard with
     | none => []
     | some c => [("topic_card", encodeTopicCard c)]) ++
    [("resource_matches", encodeResourceMatches r.resourceMatches),
     ("semantic_matches", encodeSemanticMatches r.semanticMatches)])

/-- The result-count limit carried by a recorded port call, if any. -/
def callTopK : Call → Option Int
  | .embedQuery _ => none
  | .searchVersesByEmbedding _ k => some k
  | .searchByWords _ k => some k

/-- Whether a recorded call is a keyword-channel (`SearchByWords`) call. -/
def isTopicCall : Call → Bool
  | .searchByWords _ _ => true
  | _ => false

/-- From the spec's words (§4.5, steps 1–4): for each preferred source in
order, the first topic whose source equals it and whose score ≥ `min_score`;
otherwise `topics[0]` provided its score ≥ `min_score`; otherwise none. -/
def selectCardSpec (topics : List ScoredTopic) (minScore : ℚ) :
    Option ScoredTopic :=
  match preferredSources.findSome? (fun src =>
      topics.find? fun t => t.source == src && decide (minScore ≤ t.score)) with
  | some t => some t
  | none =>
      match topics.head? with
      | some t0 => if minScore ≤ t0.score then some t0 else none
      | none => none

/-- A lower-preference ("naves") Trinity row with a high verse count,
as the keyword port would rank it first (equal score, more verses). -/
def navesTrinityResult : TopicSearchResult :=
  { topic := { topicID := "t-naves", name := "Trinity, The",
               source := "naves_topical_bible", category := "",
               chapterRefs := [] }
    score := 1, verseCount := 120, category := "" }

/-- The most-preferred-source Trinity row of the round-trip scenario. -/
def claudeTrinityResult : TopicSearchResult :=
  { topic := { topicID := "t-claude", name := "Trinity",
               source := "claude_4.5_opus", category := "",
               chapterRefs := [] }
    score := 1, verseCount := 40, category := "" }

/-- A sample scored verse returned by the vector store. -/
def sampleVerse : ScoredVerse :=
  { verseID := "John.1.1", book := "John", chapter := 1, verse := 1,
    text := "In the beginning was the Word", score := 9/10 }

/-- Ports for the round-trip scenario of the spec: both channels succeed and
the keyword channel returns the two Trinity topics, highest-ranked first. -/
def scenarioPorts : Ports :=
  { embedQuery := fun _ => .ok [1]
    searchVersesByEmbedding := fun _ _ => .ok [sampleVerse]
    searchByWords := fun _ _ => .ok [navesTrinityResult, claudeTrinityResult] }

/-- The round-trip request: query "trinity", verse_limit 10, topic_limit 5. -/
def scenarioRequest : HybridSearchRequest :=
  { query := "trinity".toList, verseLimit := 10, topicLimit := 5 }

/-- Ports whose keyword channel finds no topic (zero matches). -/
def zeroTopicPorts : Ports :=
  { embedQuery := fun _ => .ok [1]
    searchVersesByEmbedding := fun _ _ => .ok [sampleVerse]
    searchByWords := fun _ _ => .ok [] }

/-- Ports whose semantic channel fails at the vector store. -/
def semFailPorts : Ports :=
  { embedQuery := fun _ => .ok [1]
    searchVersesByEmbedding := fun _ _ => .error "vector boom"
    searchByWords := fun _ _ => .ok [navesTrinityResult, claudeTrinityResult] }

/-- Ports whose keyword channel fails. -/
def topicFailPorts : Ports :=
  { embedQuery := fun _ => .ok [1]
    searchVersesByEmbedding := fun _ _ => .ok [sampleVerse]
    searchByWords := fun _ _ => .error "topic boom" }

/-- The `ScoredTopic` projections of the two scenario rows, in port order. -/
def scenarioTopics : List ScoredTopic :=
  [scoredTopicOfResult navesTrinityResult, scoredTopicOfResult claudeTrinityResult]

/-- A topic-verse oracle that succeeds with an empty citation list. -/
def emptyVersesOracle : String → Int → Except String (List Citation) :=
  fun _ _ => .ok []

/-- A summary row whose `topic` column is exactly "trinity". -/
def trinitySummaryRow : TopicsSummaryRow :=
  { topic_id := "t1", name := "The Trinity Study".toList,
    topic := "Trinity".toList, sub_topic := "Godhead".toList,
    source := some "claude_4.5_opus", category := none, verse_count := 40 }

/-- Field access on an encoded JSON object: `some v` when the field is
present, `none` when the encoder omitted it (or the value is not an object). -/
def jsonField (j : Json) (key : String) : Option Json :=
  match j with
  | .obj fields => fields.lookup key
  | _ => none

/-- The hybrid response produced when the keyword channel finds nothing. -/
def emptyTopicsResponse : HybridSearchResponse :=
  { query := "trinity".toList
    topicCard := none
    resourceMatches := { topics := [] }
    semanticMatches := { verses := [citationOfScoredVerse sampleVerse] } }

/-- C7: for every query whose tokenization is empty (all raw fields are
shorter than 2 characters or stop words — i.e. only stop words, short
tokens or punctuation), `SearchTopics` returns the empty topic list without
error, and for every port implementation the keyword retrieval port is never
invoked (the call log is empty). -/
theorem searchTopics_skips_empty_tokenization (p : Ports) (q : Str) (k : Int)
    (h : ∀ w ∈ fieldsFunc (strToLower q), w.length < 2 ∨ w ∈ stopWords) :
    SearchTopics p q k = (.ok [], []) := by
  have ht : tokenizeWords q = [] := by
    simp only [tokenizeWords]
    rw [List.filter_eq_nil_iff]
    intro w hw
    rcases h w hw with h1 | h2
    · simp
      intro hlen
      omega
    · simp [h2]
  simp [SearchTopics, ht]

/-- Witness for C7: "the and but, a!" tokenizes to nothing and the keyword
channel is skipped. -/
theorem searchTopics_skips_empty_tokenization_witness :
    (∀ w ∈ fieldsFunc (strToLower "the and but, a!".toList),
        w.length < 2 ∨ w ∈ stopWords) ∧
    SearchTopics zeroTopicPorts "the and but, a!".toList 5 = (.ok [], []) :=
  ⟨by decide,
   searchTopics_skips_empty_tokenization zeroTopicPorts "the and but, a!".toList 5
     (by decide)⟩

/-- C10: the tokenizer does not deduplicate — a surviving token (length ≥ 2,
not a stop word) occurs in `tokenizeWords q` exactly as often as it occurs
among the raw fields of the lowercased query, and the token list is a
sublist of the raw field list (occurrences kept in order). -/
theorem tokenizeWords_keeps_occurrences (q : Str) (w : Str)
    (h2 : 2 ≤ w.length) (hs : w ∉ stopWords) :
    List.count w (tokenizeWords q) = List.count w (fieldsFunc (strToLower q)) ∧
    (tokenizeWords q).Sublist (fieldsFunc (strToLower q)) := by
  constructor
  · simp only [tokenizeWords]
    apply List.count_filter
    simp [h2, hs]
  · simp only [tokenizeWords]
    exact List.filter_sublist _

/-- Witness for C10: in "Jesus loves jesus and me" the token "jesus"
survives twice and is counted twice. -/
theorem tokenizeWords_keeps_occurrences_witness :
    ((2 ≤ ("jesus".toList).length ∧ "jesus".toList ∉ stopWords) ∧
      List.count "jesus".toList
        (tokenizeWords "Jesus loves jesus and me".toList) = 2) ∧
    List.count "jesus".toList (tokenizeWords "Jesus loves jesus and me".toList) =
      List.count "jesus".toList
        (fieldsFunc (strToLower "Jesus loves jesus and me".toList)) :=
  ⟨⟨⟨by decide, by decide⟩, by decide⟩,
   (tokenizeWords_keeps_occurrences "Jesus loves jesus and me".toList
     "jesus".toList (by decide) (by decide)).1⟩

/-- The semantic channel records no keyword-port call, and every limit it
records is the one it was given. -/
theorem semantic_trace_shape (p : Ports) (q : Str) (k : Int) :
    ∀ c ∈ (SearchVersesCitations p q k).2,
      isTopicCall c = false ∧ (callTopK c = none ∨ callTopK c = some k) := by
  intro c hc
  cases he : p.embedQuery q with
  | error e =>
      simp [SearchVersesCitations, SearchVerses, he] at hc
      subst hc
      exact ⟨rfl, Or.inl rfl⟩
  | ok emb =>
      cases hv : p.searchVersesByEmbedding emb k with
      | error e =>
          simp [SearchVersesCitations, SearchVerses, he, hv] at hc
          rcases hc with hc | hc <;> subst hc
          · exact ⟨rfl, Or.inl rfl⟩
          · exact ⟨rfl, Or.inr rfl⟩
      | ok verses =>
          simp [SearchVersesCitations, SearchVerses, he, hv] at hc
          rcases hc with hc | hc <;> subst hc
          · exact ⟨rfl, Or.inl rfl⟩
          · exact ⟨rfl, Or.inr rfl⟩

/-- C8: on a successful semantic search the citation list is exactly the
image of the port's scored-verse list — same length, same order, each
citation carrying the corresponding verse's fields with its similarity
score attached as the relevance score. -/
theorem citations_preserve_port_order (p : Ports) (q : Str) (k : Int)
    (emb : List ℚ) (verses : List ScoredVerse)
    (he : p.embedQuery q = .ok emb)
    (hv : p.searchVersesByEmbedding emb k = .ok verses) :
    (SearchVersesCitations p q k).1 = .ok (verses.map citationOfScoredVerse) ∧
    (verses.map citationOfScoredVerse).length = verses.length ∧
    ∀ i (hi : i < verses.length),
      (verses.map citationOfScoredVerse).get ⟨i, by simpa using hi⟩ =
        { verseID := (verses.get ⟨i, hi⟩).verseID
          text := (verses.get ⟨i, hi⟩).text
          book := (verses.get ⟨i, hi⟩).book
          chapter := (verses.get ⟨i, hi⟩).chapter
          verse := (verses.get ⟨i, hi⟩).verse
          relevanceScore := some (verses.get ⟨i, hi⟩).score } := by
  refine ⟨?_, by simp, ?_⟩
  · simp [SearchVersesCitations, SearchVerses, he, hv]
  · intro i hi
    simp [List.get_eq_getElem, List.getElem_map, citationOfScoredVerse]

/-- Witness for C8 at the scenario ports. -/
theorem citations_preserve_port_order_witness :
    (scenarioPorts.embedQuery "trinity".toList = .ok [1] ∧
     scenarioPorts.searchVersesByEmbedding [1] 10 = .ok [sampleVerse]) ∧
    (SearchVersesCitations scenarioPorts "trinity".toList 10).1 =
      .ok ([sampleVerse].map citationOfScoredVerse) :=
  ⟨⟨rfl, rfl⟩,
   (citations_preserve_port_order scenarioPorts "trinity".toList 10 [1]
     [sampleVerse] rfl rfl).1⟩

/-- C3: failure asymmetry of `HybridSearch`. A semantic-channel failure is
fatal: the handler returns the internal error and no response. A
keyword-channel failure alone is non-fatal: the handler still returns the
complete response, with the topic list degraded to the empty list. -/
theorem hybrid_failure_asymmetry (p : Ports) (req : HybridSearchRequest)
    (hq : req.query ≠ []) :
    (∀ e log,
        SearchVersesCitations p req.query (resolveVerseLimit req.verseLimit) =
          (.error e, log) →
        HybridSearch p req =
          (.error (.internalServerError ("Search failed: " ++ e)), log)) ∧
    (∀ cs log1 te log2,
        SearchVersesCitations p req.query (resolveVerseLimit req.verseLimit) =
          (.ok cs, log1) →
        SearchTopics p req.query (resolveTopicLimit req.topicLimit) =
          (.error te, log2) →
        HybridSearch p req =
          (.ok { query := req.query
                 topicCard := none
                 resourceMatches := { topics := [] }
                 semanticMatches := { verses := cs } }, log1 ++ log2)) := by
  constructor
  · intro e log h
    simp [HybridSearch, hq, h]
  · intro cs log1 te log2 h1 h2
    simp [HybridSearch, hq, h1, h2]

/-- Witness for C3: forced vector-store failure kills the request; forced
keyword failure still yields the full response with `topics = []`. -/
theorem hybrid_failure_asymmetry_witness :
    ("trinity".toList ≠ ([] : Str)) ∧
    HybridSearch semFailPorts scenarioRequest =
      (.error (.internalServerError "Search failed: vector boom"),
       [Call.embedQuery "trinity".toList,
        Call.searchVersesByEmbedding [1] 10]) ∧
    HybridSearch topicFailPorts scenarioRequest =
      (.ok { query := "trinity".toList
             topicCard := none
             resourceMatches := { topics := [] }
             semanticMatches := { verses := [citationOfScoredVerse sampleVerse] } },
       [Call.embedQuery "trinity".toList,
        Call.searchVersesByEmbedding [1] 10,
        Call.searchByWords ["trinity".toList] 5]) := by
  refine ⟨by decide, ?_, ?_⟩
  · exact (hybrid_failure_asymmetry semFailPorts scenarioRequest (by decide)).1
      "vector boom" _ rfl
  · exact (hybrid_failure_asymmetry topicFailPorts scenarioRequest (by decide)).2
      [citationOfScoredVerse sampleVerse] _ "topic boom" _ rfl rfl

/-- C9: the two channels never interleave. A keyword-port call appears in a
hybrid trace only with the tokenized query and resolved topic limit, strictly
after the whole semantic trace, and only when the semantic channel returned
successfully; whenever the semantic channel fails, the keyword port is never
called. -/
theorem keyword_channel_only_after_semantic (p : Ports) (req : HybridSearchRequest) :
    (∀ w k, Call.searchByWords w k ∈ (HybridSearch p req).2 →
      (∃ cs, (SearchVersesCitations p req.query
          (resolveVerseLimit req.verseLimit)).1 = .ok cs) ∧
      w = tokenizeWords req.query ∧ k = resolveTopicLimit req.topicLimit ∧
      (HybridSearch p req).2 =
        (SearchVersesCitations p req.query (resolveVerseLimit req.verseLimit)).2 ++
          [Call.searchByWords (tokenizeWords req.query)
            (resolveTopicLimit req.topicLimit)]) ∧
    (∀ e, (SearchVersesCitations p req.query
          (resolveVerseLimit req.verseLimit)).1 = .error e →
      ∀ c ∈ (HybridSearch p req).2, isTopicCall c = false) := by
  by_cases hq : req.query = []
  · constructor
    · intro w k hmem
      simp [HybridSearch, hq] at hmem
    · intro e _ c hc
      simp [HybridSearch, hq] at hc
  · rcases hsvc : SearchVersesCitations p req.query (resolveVerseLimit req.verseLimit)
      with ⟨r, log⟩
    cases r with
    | error e =>
        constructor
        · intro w k hmem
          rw [show (HybridSearch p req).2 = log by simp [HybridSearch, hq, hsvc]] at hmem
          have := (semantic_trace_shape p req.query (resolveVerseLimit req.verseLimit)
            (Call.searchByWords w k) (by rw [hsvc]; exact hmem)).1
          simp [isTopicCall] at this
        · intro e2 _ c hc
          rw [show (HybridSearch p req).2 = log by simp [HybridSearch, hq, hsvc]] at hc
          exact (semantic_trace_shape p req.query (resolveVerseLimit req.verseLimit)
            c (by rw [hsvc]; exact hc)).1
    | ok cs =>
        constructor
        · intro w k hmem
          rcases hst : SearchTopics p req.query (resolveTopicLimit req.topicLimit)
            with ⟨tr, tlog⟩
          have htr : (HybridSearch p req).2 = log ++ tlog := by
            simp [HybridSearch, hq, hsvc, hst]
          rw [htr] at hmem
          rcases List.mem_append.mp hmem with hmem | hmem
          · have := (semantic_trace_shape p req.query (resolveVerseLimit req.verseLimit)
              (Call.searchByWords w k) (by rw [hsvc]; exact hmem)).1
            simp [isTopicCall] at this
          · by_cases hw : (tokenizeWords req.query).isEmpty
            · simp [SearchTopics, hw] at hst
              rw [hst.2] at hmem
              simp at hmem
            · have htlog : tlog = [Call.searchByWords (tokenizeWords req.query)
                  (resolveTopicLimit req.topicLimit)] := by
                simp only [SearchTopics, hw] at hst
                rcases hrepo : p.searchByWords (tokenizeWords req.query)
                    (resolveTopicLimit req.topicLimit) with e2 | rs <;>
                  rw [hrepo] at hst <;> simp at hst <;> exact hst.2.symm
              rw [htlog] at hmem
              simp at hmem
              refine ⟨⟨cs, rfl⟩, hmem.1, hmem.2, ?_⟩
              rw [htr, htlog]
        · intro e2 he2
          simp at he2

/-- Witness for C9: in the scenario the keyword call comes after the whole
semantic trace; with a failing semantic channel no keyword call is made. -/
theorem keyword_channel_only_after_semantic_witness :
    Call.searchByWords ["trinity".toList] 5 ∈
      (HybridSearch scenarioPorts scenarioRequest).2 ∧
    (HybridSearch scenarioPorts scenarioRequest).2 =
      (SearchVersesCitations scenarioPorts scenarioRequest.query
        (resolveVerseLimit scenarioRequest.verseLimit)).2 ++
        [Call.searchByWords (tokenizeWords scenarioRequest.query)
          (resolveTopicLimit scenarioRequest.topicLimit)] ∧
    (∀ c ∈ (HybridSearch semFailPorts scenarioRequest).2,
      isTopicCall c = false) := by
  refine ⟨by decide, ?_, ?_⟩
  · exact ((keyword_channel_only_after_semantic scenarioPorts scenarioRequest).1
      ["trinity".toList] 5 (by decide)).2.2.2
  · exact (keyword_channel_only_after_semantic semFailPorts scenarioRequest).2
      "vector boom" rfl

/-- Every resolved limit lies in [1,50]. -/
theorem resolved_limits_in_range (l : Int) :
    (1 ≤ resolveSemanticLimit l ∧ resolveSemanticLimit l ≤ 50) ∧
    (1 ≤ resolveVerseLimit l ∧ resolveVerseLimit l ≤ 50) ∧
    (1 ≤ resolveTopicLimit l ∧ resolveTopicLimit l ≤ 50) := by
  unfold resolveSemanticLimit resolveVerseLimit resolveTopicLimit
  by_cases h : l ≤ 0 ∨ 50 < l <;> first
  | (simp [h]; omega)
  | simp [h]

/-- Every limit recorded in a hybrid trace is a resolved limit. -/
theorem hybrid_trace_limits (p : Ports) (req : HybridSearchRequest) :
    ∀ c ∈ (HybridSearch p req).2,
      callTopK c = none ∨
      callTopK c = some (resolveVerseLimit req.verseLimit) ∨
      callTopK c = some (resolveTopicLimit req.topicLimit) := by
  intro c hc
  by_cases hq : req.query = []
  · simp [HybridSearch, hq] at hc
  · rcases hsvc : SearchVersesCitations p req.query (resolveVerseLimit req.verseLimit)
      with ⟨r, log⟩
    cases r with
    | error e =>
        rw [show (HybridSearch p req).2 = log by simp [HybridSearch, hq, hsvc]] at hc
        rcases (semantic_trace_shape p req.query (resolveVerseLimit req.verseLimit)
          c (by rw [hsvc]; exact hc)).2 with h | h
        · exact Or.inl h
        · exact Or.inr (Or.inl h)
    | ok cs =>
        rcases hst : SearchTopics p req.query (resolveTopicLimit req.topicLimit)
          with ⟨tr, tlog⟩
        rw [show (HybridSearch p req).2 = log ++ tlog by
          simp [HybridSearch, hq, hsvc, hst]] at hc
        rcases List.mem_append.mp hc with hc | hc
        · rcases (semantic_trace_shape p req.query (resolveVerseLimit req.verseLimit)
            c (by rw [hsvc]; exact hc)).2 with h | h
          · exact Or.inl h
          · exact Or.inr (Or.inl h)
        · by_cases hw : (tokenizeWords req.query).isEmpty
          · simp [SearchTopics, hw] at hst
            rw [hst.2] at hc
            simp at hc
          · have htlog : tlog = [Call.searchByWords (tokenizeWords req.query)
                (resolveTopicLimit req.topicLimit)] := by
              simp only [SearchTopics, hw] at hst
              rcases hrepo : p.searchByWords (tokenizeWords req.query)
                  (resolveTopicLimit req.topicLimit) with e2 | rs <;>
                rw [hrepo] at hst <;> simp at hst <;> exact hst.2.symm
            rw [htlog] at hc
            simp at hc
            subst hc
            exact Or.inr (Or.inr rfl)

/-- `SemanticSearch` depends on its limit only through the resolved value. -/
theorem semanticSearch_limit_congr (p : Ports) (q : Str) (a b : Int)
    (h : resolveSemanticLimit a = resolveSemanticLimit b) :
    SemanticSearch p ⟨q, a⟩ = SemanticSearch p ⟨q, b⟩ := by
  simp only [SemanticSearch]
  rw [h]

/-- `HybridSearch` depends on its limits only through the resolved values. -/
theorem hybridSearch_limit_congr (p : Ports) (q : Str) (a b a2 b2 : Int)
    (hv : resolveVerseLimit a = resolveVerseLimit a2)
    (ht : resolveTopicLimit b = resolveTopicLimit b2) :
    HybridSearch p ⟨q, a, b⟩ = HybridSearch p ⟨q, a2, b2⟩ := by
  simp only [HybridSearch]
  rw [hv, ht]

/-- C5: limit clamping. Every port call carries a resolved limit; a limit in
[1,50] resolves to itself; a limit outside [1,50] resolves to the default
(10 for verses, 5 for topics), the handler behaves exactly as with the
default (it never rejects for an out-of-range limit), and the raw limit is
never passed to any retrieval call. -/
theorem handlers_clamp_limits (p : Ports) (q : Str) (L Lv Lt : Int)
    (hq : q ≠ []) :
    (∀ c ∈ (SemanticSearch p ⟨q, L⟩).2,
      callTopK c = none ∨ callTopK c = some (resolveSemanticLimit L)) ∧
    (1 ≤ L → L ≤ 50 → resolveSemanticLimit L = L) ∧
    ((L ≤ 0 ∨ 50 < L) →
      resolveSemanticLimit L = 10 ∧
      SemanticSearch p ⟨q, L⟩ = SemanticSearch p ⟨q, 10⟩ ∧
      ∀ c ∈ (SemanticSearch p ⟨q, L⟩).2, callTopK c ≠ some L) ∧
    (1 ≤ Lv → Lv ≤ 50 → resolveVerseLimit Lv = Lv) ∧
    (1 ≤ Lt → Lt ≤ 50 → resolveTopicLimit Lt = Lt) ∧
    ((Lv ≤ 0 ∨ 50 < Lv) →
      resolveVerseLimit Lv = 10 ∧
      HybridSearch p ⟨q, Lv, Lt⟩ = HybridSearch p ⟨q, 10, Lt⟩ ∧
      ∀ c ∈ (HybridSearch p ⟨q, Lv, Lt⟩).2, callTopK c ≠ some Lv) ∧
    ((Lt ≤ 0 ∨ 50 < Lt) →
      resolveTopicLimit Lt = 5 ∧
      HybridSearch p ⟨q, Lv, Lt⟩ = HybridSearch p ⟨q, Lv, 5⟩ ∧
      ∀ c ∈ (HybridSearch p ⟨q, Lv, Lt⟩).2, callTopK c ≠ some Lt) := by
  have hsem : ∀ c ∈ (SemanticSearch p ⟨q, L⟩).2,
      callTopK c = none ∨ callTopK c = some (resolveSemanticLimit L) := by
    intro c hc
    have htr : (SemanticSearch p ⟨q, L⟩).2 =
        (SearchVersesCitations p q (resolveSemanticLimit L)).2 := by
      simp only [SemanticSearch]
      rcases hsvc : SearchVersesCitations p q (resolveSemanticLimit L) with ⟨r, log⟩
      cases r <;> simp [hq, hsvc]
    rw [htr] at hc
    exact (semantic_trace_shape p q (resolveSemanticLimit L) c hc).2
  refine ⟨hsem, ?_, ?_, ?_, ?_, ?_, ?_⟩
  · intro h1 h2
    simp only [resolveSemanticLimit]
    rw [if_neg]
    omega
  · intro hout
    have h10 : resolveSemanticLimit L = 10 := by
      simp only [resolveSemanticLimit]
      rw [if_pos hout]
    refine ⟨h10, semanticSearch_limit_congr p q L 10 (by rw [h10]; rfl), ?_⟩
    intro c hc
    rcases hsem c hc with h | h <;> rw [h]
    · simp
    · simp only [h10]
      intro hcontra
      simp at hcontra
      omega
  · intro h1 h2
    simp only [resolveVerseLimit]
    rw [if_neg]
    omega
  · intro h1 h2
    simp only [resolveTopicLimit]
    rw [if_neg]
    omega
  · intro hout
    have h10 : resolveVerseLimit Lv = 10 := by
      simp only [resolveVerseLimit]
      rw [if_pos hout]
    refine ⟨h10, hybridSearch_limit_congr p q Lv Lt 10 Lt (by rw [h10]; rfl) rfl, ?_⟩
    intro c hc
    rcases hybrid_trace_limits p ⟨q, Lv, Lt⟩ c hc with h | h | h <;> rw [h]
    · simp
    · simp only [h10]
      intro hcontra
      simp at hcontra
      omega
    · have := (resolved_limits_in_range Lt).2.2
      intro hcontra
      simp at hcontra
      omega
  · intro hout
    have h5 : resolveTopicLimit Lt = 5 := by
      simp only [resolveTopicLimit]
      rw [if_pos hout]
    refine ⟨h5, hybridSearch_limit_congr p q Lv Lt Lv 5 rfl (by rw [h5]; rfl), ?_⟩
    intro c hc
    rcases hybrid_trace_limits p ⟨q, Lv, Lt⟩ c hc with h | h | h <;> rw [h]
    · simp
    · have := (resolved_limits_in_range Lv).2.1
      intro hcontra
      simp at hcontra
      omega
    · simp only [h5]
      intro hcontra
      simp at hcontra
      omega

/-- Witness for C5 at limits 1000 (verses) and 0 (topics): the defaults are
used and the out-of-range values never reach a port. -/
theorem handlers_clamp_limits_witness :
    ("trinity".toList ≠ ([] : Str)) ∧
    resolveSemanticLimit 1000 = 10 ∧
    HybridSearch scenarioPorts ⟨"trinity".toList, 1000, 0⟩ =
      HybridSearch scenarioPorts ⟨"trinity".toList, 10, 0⟩ ∧
    resolveTopicLimit 0 = 5 ∧
    (∀ c ∈ (HybridSearch scenarioPorts ⟨"trinity".toList, 1000, 0⟩).2,
      callTopK c ≠ some 1000) := by
  have h := handlers_clamp_limits scenarioPorts "trinity".toList 1000 1000 0
    (by decide)
  refine ⟨by decide, (h.2.2.1 (by omega)).1, (h.2.2.2.2.2.1 (by omega)).2.1, ?_, ?_⟩
  · exact (h.2.2.2.2.2.2 (by omega)).1
  · exact (h.2.2.2.2.2.1 (by omega)).2.2

/-- Every successful hybrid response leaves the topic card unset: the
handler's response literal never assigns `TopicCard`. -/
theorem hybrid_response_card_none (p : Ports) (req : HybridSearchRequest)
    (resp : HybridSearchResponse) (log : List Call)
    (h : HybridSearch p req = (.ok resp, log)) : resp.topicCard = none := by
  by_cases hq : req.query = []
  · simp [HybridSearch, hq] at h
  · rcases hsvc : SearchVersesCitations p req.query (resolveVerseLimit req.verseLimit)
      with ⟨r, slog⟩
    cases r with
    | error e => simp [HybridSearch, hq, hsvc] at h
    | ok cs =>
        simp [HybridSearch, hq, hsvc] at h
        rw [← h.1]

/-- Counterexample to C1: in the round-trip scenario the keyword channel
returns the most-preferred-source "Trinity" topic with score 1.0 (clearing
any minimum-score gate ≤ 1), yet the hybrid response carries no topic card
at all — the card is `none`, not the selected topic. -/
theorem hybrid_card_missing_counterexample :
    (HybridSearch scenarioPorts scenarioRequest).1 =
      .ok { query := "trinity".toList
            topicCard := none
            resourceMatches := { topics := scenarioTopics }
            semanticMatches := { verses := [citationOfScoredVerse sampleVerse] } } ∧
    scoredTopicOfResult claudeTrinityResult ∈ scenarioTopics ∧
    (scoredTopicOfResult claudeTrinityResult).score = 1 ∧
    (scoredTopicOfResult claudeTrinityResult).source = "claude_4.5_opus" ∧
    (scoredTopicOfResult navesTrinityResult).verseCount = 120 ∧
    (scoredTopicOfResult claudeTrinityResult).verseCount = 40 := by
  refine ⟨rfl, by decide, by decide, rfl, rfl, rfl⟩

/-- C1 amended: the hybrid handler never attaches a topic card (every
successful response has `topic_card` absent), although the selector
`GetTopicCard`, applied to the scenario's keyword results, does select the
exact most-preferred-source Trinity topic rather than the higher-verse-count
lower-preference alternative. -/
theorem hybrid_card_amended :
    (∀ p req resp log, HybridSearch p req = (.ok resp, log) →
      resp.topicCard = none) ∧
    (∀ gv vs, gv "t-claude" (5 : Int) = .ok vs →
      GetTopicCard gv scenarioTopics (mkRat 1 2) 5 =
        .ok (some { topicID := "t-claude", name := "Trinity", category := "",
                    source := "claude_4.5_opus", verseCount := 40, score := 1,
                    topVerses := vs })) := by
  constructor
  · exact hybrid_response_card_none
  · intro gv vs h
    have hsel : findPreferredTopic scenarioTopics (mkRat 1 2) =
        some (scoredTopicOfResult claudeTrinityResult) := by decide
    have hne : ¬(scenarioTopics = []) := by decide
    simp only [GetTopicCard, if_neg hne, hsel]
    rw [show (scoredTopicOfResult claudeTrinityResult).topicID = "t-claude" from rfl,
      h]
    rfl

/-- Witness for the C1 amended theorem: both parts at concrete inputs. -/
theorem hybrid_card_amended_witness :
    emptyTopicsResponse.topicCard = none ∧
    GetTopicCard emptyVersesOracle scenarioTopics (mkRat 1 2) 5 =
      .ok (some { topicID := "t-claude", name := "Trinity", category := "",
                  source := "claude_4.5_opus", verseCount := 40, score := 1,
                  topVerses := [] }) :=
  ⟨(hybrid_card_amended).1 zeroTopicPorts scenarioRequest emptyTopicsResponse
     [Call.embedQuery "trinity".toList, Call.searchVersesByEmbedding [1] 10,
      Call.searchByWords ["trinity".toList] 5] rfl,
   (hybrid_card_amended).2 emptyVersesOracle [] rfl⟩

/-- Counterexample to C4: when the keyword channel matches nothing, the
response's `resource_matches` serializes to an object with NO `topics` field
at all — the `omitempty` tag omits the empty list instead of emitting
`topics: []` — while `verses` is present (and would be present even empty). -/
theorem topics_field_omitted_counterexample :
    (HybridSearch zeroTopicPorts scenarioRequest).1 = .ok emptyTopicsResponse ∧
    emptyTopicsResponse.resourceMatches.topics = [] ∧
    jsonField (encodeHybridSearchResponse emptyTopicsResponse)
      "resource_matches" = some (.obj []) ∧
    jsonField (encodeResourceMatches emptyTopicsResponse.resourceMatches)
      "topics" = none ∧
    jsonField (encodeHybridSearchResponse emptyTopicsResponse)
      "semantic_matches" =
      some (.obj [("verses",
        .arr [encodeCitation (citationOfScoredVerse sampleVerse)])]) :=
  ⟨rfl, rfl, rfl, rfl, rfl⟩

/-- C4 amended: in every successful hybrid response the serialized
`semantic_matches.verses` field is always present (an empty array when there
are no matches), but `resource_matches.topics` carries `omitempty`: it is
omitted from the output whenever the topic list is empty and present exactly
when the list is non-empty. -/
theorem verses_always_present_topics_omitted_when_empty
    (p : Ports) (req : HybridSearchRequest) (resp : HybridSearchResponse)
    (log : List Call) (h : HybridSearch p req = (.ok resp, log)) :
    jsonField (encodeHybridSearchResponse resp) "semantic_matches" =
      some (.obj [("verses", .arr (resp.semanticMatches.verses.map encodeCitation))]) ∧
    jsonField (encodeHybridSearchResponse resp) "resource_matches" =
      some (encodeResourceMatches resp.resourceMatches) ∧
    (resp.resourceMatches.topics = [] →
      jsonField (encodeResourceMatches resp.resourceMatches) "topics" = none) ∧
    (resp.resourceMatches.topics ≠ [] →
      jsonField (encodeResourceMatches resp.resourceMatches) "topics" =
        some (.arr (resp.resourceMatches.topics.map encodeScoredTopic))) := by
  have hcard := hybrid_response_card_none p req resp log h
  refine ⟨?_, ?_, ?_, ?_⟩
  · simp only [encodeHybridSearchResponse, hcard]
    rfl
  · simp only [encodeHybridSearchResponse, hcard]
    rfl
  · intro ht
    simp [encodeResourceMatches, ht, jsonField]
  · intro ht
    simp [encodeResourceMatches, ht, jsonField]

/-- Witness for the C4 amended theorem at the zero-topic scenario. -/
theorem verses_always_present_topics_omitted_when_empty_witness :
    jsonField (encodeHybridSearchResponse emptyTopicsResponse)
        "semantic_matches" =
      some (.obj [("verses",
        .arr (emptyTopicsResponse.semanticMatches.verses.map encodeCitation))]) ∧
    jsonField (encodeResourceMatches emptyTopicsResponse.resourceMatches)
      "topics" = none :=
  ⟨(verses_always_present_topics_omitted_when_empty zeroTopicPorts
      scenarioRequest emptyTopicsResponse
      [Call.embedQuery "trinity".toList, Call.searchVersesByEmbedding [1] 10,
       Call.searchByWords ["trinity".toList] 5] rfl).1,
   (verses_always_present_topics_omitted_when_empty zeroTopicPorts
      scenarioRequest emptyTopicsResponse
      [Call.embedQuery "trinity".toList, Call.searchVersesByEmbedding [1] 10,
       Call.searchByWords ["trinity".toList] 5] rfl).2.2.1 rfl⟩

/-- The first occurrence of a list element comes no later than any position
where it appears. -/
theorem indexOf_getElem_le (l : List String) :
    ∀ (j : Nat) (hj : j < l.length), l.indexOf (l.get ⟨j, hj⟩) ≤ j := by
  induction l with
  | nil => intro j hj; simp at hj
  | cons a t ih =>
      intro j hj
      cases j with
      | zero => simp [List.indexOf_cons]
      | succ j2 =>
          have hget : (a :: t).get ⟨j2 + 1, hj⟩ = t.get ⟨j2, by simpa using hj⟩ := rfl
          rw [hget, List.indexOf_cons]
          cases h : a == t.get ⟨j2, by simpa using hj⟩
          · simp only [cond_false]
            have := ih j2 (by simpa using hj)
            omega
          · simp

/-- `findSome?` yields a hit at the first productive position: if position
`i` is productive, the result comes from some position `j ≤ i`. -/
theorem findSome?_first_hit {α β : Type} (f : α → Option β) (l : List α) :
    ∀ (i : Nat) (hi : i < l.length), f (l.get ⟨i, hi⟩) ≠ none →
    ∃ j, ∃ hj : j < l.length, j ≤ i ∧ ∃ b, f (l.get ⟨j, hj⟩) = some b ∧
      l.findSome? f = some b := by
  induction l with
  | nil => intro i hi; simp at hi
  | cons a t ih =>
      intro i hi hne
      cases hfa : f a with
      | some b =>
          exact ⟨0, by simp, by omega, b, hfa, by rw [List.findSome?_cons, hfa]⟩
      | none =>
          cases i with
          | zero => exact absurd hfa hne
          | succ i2 =>
              obtain ⟨j, hj, hji, b, hfb, hfs⟩ :=
                ih i2 (by simpa using hi) (by simpa using hne)
              exact ⟨j + 1, by simpa using hj, by omega, b, hfb,
                by rw [List.findSome?_cons, hfa]; exact hfs⟩

/-- C2: `GetTopicCard` selects exactly as specified: it refines the
spec-side selector (preferred sources in order, inner scan in topic order,
first topic with matching source and score ≥ min; else `topics[0]` when it
clears the gate; else none), returns none on the empty list and when nothing
clears `min_score`, and of two qualifying topics whose sources both appear
in the preference list, the selected topic's source is never the
later-listed one, regardless of relative score. -/
theorem getTopicCard_selection (gv : String → Int → Except String (List Citation))
    (topics : List ScoredTopic) (ms : ℚ) (vl : Int) :
    (GetTopicCard gv topics ms vl =
      match selectCardSpec topics ms with
      | none => .ok none
      | some t =>
          match gv t.topicID vl with
          | .error e => .error e
          | .ok verses =>
              .ok (some { topicID := t.topicID, name := t.name,
                          category := t.category, source := t.source,
                          verseCount := t.verseCount, score := t.score,
                          topVerses := verses })) ∧
    (topics = [] → GetTopicCard gv topics ms vl = .ok none) ∧
    ((∀ t ∈ topics, t.score < ms) → GetTopicCard gv topics ms vl = .ok none) ∧
    (∀ t1 t2, t1 ∈ topics → t2 ∈ topics →
      t1.source ∈ preferredSources → t2.source ∈ preferredSources →
      preferredSources.indexOf t1.source < preferredSources.indexOf t2.source →
      ms ≤ t1.score → ms ≤ t2.score →
      ∃ t, selectCardSpec topics ms = some t ∧
        preferredSources.indexOf t.source ≤ preferredSources.indexOf t1.source ∧
        ms ≤ t.score ∧ t.source ≠ t2.source) := by
  have hchar : GetTopicCard gv topics ms vl =
      match selectCardSpec topics ms with
      | none => .ok none
      | some t =>
          match gv t.topicID vl with
          | .error e => .error e
          | .ok verses =>
              .ok (some { topicID := t.topicID, name := t.name,
                          category := t.category, source := t.source,
                          verseCount := t.verseCount, score := t.score,
                          topVerses := verses }) := by
    by_cases hnil : topics = []
    · subst hnil
      simp [GetTopicCard, selectCardSpec, findPreferredTopic, preferredSources]
    · simp only [GetTopicCard, if_neg hnil, selectCardSpec, findPreferredTopic]
  have hspec_none : (∀ t ∈ topics, t.score < ms) → selectCardSpec topics ms = none := by
    intro hall
    have hfp : preferredSources.findSome? (fun src =>
        topics.find? fun t => t.source == src && decide (ms ≤ t.score)) = none := by
      rw [List.findSome?_eq_none_iff]
      intro src _
      rw [List.find?_eq_none]
      intro t ht
      simp only [Bool.and_eq_true, beq_iff_eq, decide_eq_true_eq, not_and]
      intro _
      exact not_le.mpr (hall t ht)
    simp only [selectCardSpec, hfp]
    rcases hh : topics.head? with _ | t0
    · simp
    · have ht0 : t0 ∈ topics := by
        cases topics with
        | nil => simp at hh
        | cons a t =>
            simp at hh
            subst hh
            exact List.mem_cons_self a t
      simp [not_le.mpr (hall t0 ht0)]
  refine ⟨hchar, ?_, ?_, ?_⟩
  · intro hnil
    rw [hchar]
    subst hnil
    simp [selectCardSpec, findPreferredTopic, preferredSources]
  · intro hall
    rw [hchar, hspec_none hall]
  · intro t1 t2 ht1 ht2 hm1 hm2 hij hs1 hs2
    have hi : preferredSources.indexOf t1.source < preferredSources.length :=
      List.indexOf_lt_length.mpr hm1
    have hget : preferredSources.get ⟨preferredSources.indexOf t1.source, hi⟩ =
        t1.source := by
      simp [List.getElem_indexOf hi]
    have hne : (fun src => topics.find? fun t =>
        t.source == src && decide (ms ≤ t.score))
          (preferredSources.get ⟨preferredSources.indexOf t1.source, hi⟩) ≠ none := by
      rw [hget]
      intro hnone
      rw [List.find?_eq_none] at hnone
      have := hnone t1 ht1
      simp [hs1] at this
    obtain ⟨j, hj, hji, b, hfb, hfs⟩ :=
      findSome?_first_hit
        (fun src => topics.find? fun t => t.source == src && decide (ms ≤ t.score))
        preferredSources (preferredSources.indexOf t1.source) hi hne
    have hbprop := List.find?_some hfb
    simp only [Bool.and_eq_true, beq_iff_eq, decide_eq_true_eq] at hbprop
    have hidx : preferredSources.indexOf b.source ≤ j := by
      rw [hbprop.1]
      exact indexOf_getElem_le preferredSources j hj
    refine ⟨b, ?_, le_trans hidx hji, hbprop.2, ?_⟩
    · simp only [selectCardSpec, findPreferredTopic, hfs]
    · intro heq
      rw [heq] at hidx
      omega

/-- Witness for C2: empty list gives none; a gate above every score gives
none; with both Trinity topics qualifying at gate 1/2 the selected source is
the earlier-listed one, not the later. -/
theorem getTopicCard_selection_witness :
    GetTopicCard emptyVersesOracle [] (1 : ℚ) 5 = .ok none ∧
    GetTopicCard emptyVersesOracle scenarioTopics (2 : ℚ) 5 = .ok none ∧
    (∃ t, selectCardSpec scenarioTopics (mkRat 1 2) = some t ∧
      preferredSources.indexOf t.source ≤
        preferredSources.indexOf (scoredTopicOfResult claudeTrinityResult).source ∧
      mkRat 1 2 ≤ t.score ∧
      t.source ≠ (scoredTopicOfResult navesTrinityResult).source) :=
  ⟨(getTopicCard_selection emptyVersesOracle [] 1 5).2.1 rfl,
   (getTopicCard_selection emptyVersesOracle scenarioTopics 2 5).2.2.1 (by decide),
   (getTopicCard_selection emptyVersesOracle scenarioTopics (mkRat 1 2) 5).2.2.2
     (scoredTopicOfResult claudeTrinityResult)
     (scoredTopicOfResult navesTrinityResult)
     (by decide) (by decide) (by decide) (by decide) (by decide)
     (by decide) (by decide)⟩

/-- A lowercase-alphanumeric character in numeric range form. -/
theorem goodChar_toNat (c : Char)
    (hc : ('a' ≤ c ∧ c ≤ 'z') ∨ ('0' ≤ c ∧ c ≤ '9')) :
    (97 ≤ c.toNat ∧ c.toNat ≤ 122) ∨ (48 ≤ c.toNat ∧ c.toNat ≤ 57) := by
  rcases hc with ⟨h1, h2⟩ | ⟨h1, h2⟩
  · exact Or.inl ⟨h1, h2⟩
  · exact Or.inr ⟨h1, h2⟩

/-- A lowercase-alphanumeric character is not the SQL wildcard `%`. -/
theorem goodChar_ne_pct (c : Char)
    (hc : ('a' ≤ c ∧ c ≤ 'z') ∨ ('0' ≤ c ∧ c ≤ '9')) : c ≠ '%' := by
  have h := goodChar_toNat c hc
  intro heq
  rw [heq] at h
  revert h
  decide

/-- A lowercase-alphanumeric character is not the SQL wildcard `_`. -/
theorem goodChar_ne_us (c : Char)
    (hc : ('a' ≤ c ∧ c ≤ 'z') ∨ ('0' ≤ c ∧ c ≤ '9')) : c ≠ '_' := by
  have h := goodChar_toNat c hc
  intro heq
  rw [heq] at h
  revert h
  decide

/-- Lowercasing fixes lowercase-alphanumeric characters. -/
theorem toLowerChar_good (c : Char)
    (hc : ('a' ≤ c ∧ c ≤ 'z') ∨ ('0' ≤ c ∧ c ≤ '9')) : toLowerChar c = c := by
  have h := goodChar_toNat c hc
  unfold toLowerChar
  rw [if_neg]
  rintro ⟨h1, h2⟩
  have h1n : 65 ≤ c.toNat := h1
  have h2n : c.toNat ≤ 90 := h2
  rcases h with ⟨ha, hb⟩ | ⟨ha, hb⟩ <;> omega

/-- Lowercasing fixes a lowercase-alphanumeric word. -/
theorem strToLower_good (w : Str)
    (h : ∀ c ∈ w, ('a' ≤ c ∧ c ≤ 'z') ∨ ('0' ≤ c ∧ c ≤ '9')) :
    strToLower w = w := by
  induction w with
  | nil => rfl
  | cons c w2 ih =>
      simp only [strToLower, List.map_cons]
      rw [toLowerChar_good c (h c (List.mem_cons_self c w2))]
      have hih := ih (fun d hd => h d (List.mem_cons_of_mem c hd))
      simp only [strToLower] at hih
      rw [hih]

/-- `TRIM('%' FROM '%' || word || '%') = word` for tokenizer words. -/
theorem trim_wordPattern (w : Str) (hne : w ≠ [])
    (h : ∀ c ∈ w, ('a' ≤ c ∧ c ≤ 'z') ∨ ('0' ≤ c ∧ c ≤ '9')) :
    trimChar '%' (wordPattern w) = w := by
  rcases w with _ | ⟨c, w2⟩
  · exact absurd rfl hne
  · have hc : ¬(c = '%') := goodChar_ne_pct c (h c (List.mem_cons_self c w2))
    unfold trimChar wordPattern
    have e1 : List.dropWhile (fun x => decide (x = '%'))
        ('%' :: (c :: w2 ++ ['%'])) = c :: (w2 ++ ['%']) := by
      simp [List.dropWhile_cons, hc]
    rw [e1]
    have e2 : (c :: (w2 ++ ['%'])).reverse = '%' :: (c :: w2).reverse := by
      rw [show c :: (w2 ++ ['%']) = (c :: w2) ++ ['%'] from rfl, List.reverse_append]
      rfl
    rw [e2]
    rcases hrev : (c :: w2).reverse with _ | ⟨d, rest⟩
    · simp at hrev
    · have hd : d ∈ c :: w2 := by
        have hmem : d ∈ (c :: w2).reverse := by
          rw [hrev]
          exact List.mem_cons_self d rest
        exact List.mem_reverse.mp hmem
      have hdne : ¬(d = '%') := goodChar_ne_pct d (h d hd)
      have e3 : List.dropWhile (fun x => decide (x = '%')) ('%' :: d :: rest) =
          d :: rest := by
        simp [List.dropWhile_cons, hdne]
      rw [e3, ← hrev, List.reverse_reverse]

/-- A bare `%` pattern matches every string. -/
theorem likeMatch_pct (s : Str) : likeMatch s ['%'] = true := by
  induction s with
  | nil => simp [likeMatch]
  | cons c s ih =>
      rw [likeMatch]
      simp [ih, likeMatch]

/-- A wildcard-free word followed by `%` matches exactly the strings it
prefixes. -/
theorem likeMatch_wordStart (w : Str) (hp : '%' ∉ w) (hu : '_' ∉ w) :
    ∀ s, likeMatch s (w ++ ['%']) = true ↔ w <+: s := by
  induction w with
  | nil =>
      intro s
      simpa using likeMatch_pct s
  | cons a w2 ih =>
      intro s
      have ha1 : a ≠ '%' := fun h => hp (h ▸ List.mem_cons_self a w2)
      have ha2 : a ≠ '_' := fun h => hu (h ▸ List.mem_cons_self a w2)
      rw [List.cons_append]
      cases s with
      | nil =>
          rw [likeMatch]
          simp [ha1]
      | cons c s2 =>
          rw [likeMatch]
          simp only [if_neg ha1]
          rw [List.cons_prefix_cons]
          have hih := ih (fun h => hp (List.mem_cons_of_mem a h))
            (fun h => hu (List.mem_cons_of_mem a h)) s2
          simp only [Bool.and_eq_true, Bool.or_eq_true, decide_eq_true_eq, ha2,
            false_or, hih]
          exact and_congr_left (fun _ => eq_comm)

/-- A leading `%` matches a string iff some suffix matches the rest. -/
theorem likeMatch_pct_cons (p : Str) :
    ∀ s, likeMatch s ('%' :: p) = true ↔ ∃ t, t <:+ s ∧ likeMatch t p = true := by
  intro s
  induction s with
  | nil =>
      rw [likeMatch]
      simp [List.suffix_nil]
  | cons c s2 ih =>
      rw [likeMatch]
      simp only [if_pos rfl]
      constructor
      · intro h
        rcases Bool.or_eq_true_iff.mp h with h | h
        · exact ⟨c :: s2, List.suffix_refl _, h⟩
        · obtain ⟨t, ht, hlm⟩ := ih.mp h
          exact ⟨t, ht.trans (List.suffix_cons c s2), hlm⟩
      · rintro ⟨t, ht, hlm⟩
        rcases List.suffix_cons_iff.mp ht with h | h
        · subst h
          exact Bool.or_eq_true_iff.mpr (Or.inl hlm)
        · exact Bool.or_eq_true_iff.mpr (Or.inr (ih.mpr ⟨t, h, hlm⟩))

/-- Lowercasing a `%word%` pattern of a tokenizer word changes nothing. -/
theorem strToLower_wordPattern (w : Str)
    (h : ∀ c ∈ w, ('a' ≤ c ∧ c ≤ 'z') ∨ ('0' ≤ c ∧ c ≤ '9')) :
    strToLower (wordPattern w) = wordPattern w := by
  have hpct : toLowerChar '%' = '%' := by decide
  simp only [wordPattern, strToLower, List.map_cons, List.map_append, hpct]
  have hw := strToLower_good w h
  simp only [strToLower] at hw
  rw [hw]
  simp

/-- `ILIKE '%word%'` is exactly case-insensitive substring matching for
tokenizer words. -/
theorem ilike_iff_substring (w : Str) (hw : goodWord w) (s : Str) :
    ilike s (wordPattern w) = true ↔ w <:+: strToLower s := by
  have hp : '%' ∉ w := fun hm => goodChar_ne_pct _ (hw.2 _ hm) rfl
  have hu : '_' ∉ w := fun hm => goodChar_ne_us _ (hw.2 _ hm) rfl
  unfold ilike
  rw [strToLower_wordPattern w hw.2,
    show wordPattern w = '%' :: (w ++ ['%']) from rfl,
    likeMatch_pct_cons]
  constructor
  · rintro ⟨t, hsuf, hlm⟩
    exact List.infix_iff_prefix_suffix.mpr
      ⟨t, (likeMatch_wordStart w hp hu t).mp hlm, hsuf⟩
  · intro hinf
    obtain ⟨t, hpre, hsuf⟩ := List.infix_iff_prefix_suffix.mp hinf
    exact ⟨t, hsuf, (likeMatch_wordStart w hp hu t).mpr hpre⟩

/-- A descending five-branch `CASE` equals the maximum of its graded
indicator values. -/
theorem if_chain_eq_max (c1 c2 c3 c4 c5 : Prop)
    [Decidable c1] [Decidable c2] [Decidable c3] [Decidable c4] [Decidable c5] :
    (if c1 then (1 : ℚ) else if c2 then 95/100 else if c3 then 9/10
      else if c4 then 85/100 else if c5 then 7/10 else 0) =
    max (if c1 then (1 : ℚ) else 0)
      (max (if c2 then (95 : ℚ)/100 else 0)
        (max (if c3 then (9 : ℚ)/10 else 0)
          (max (if c4 then (85 : ℚ)/100 else 0)
            (if c5 then (7 : ℚ)/10 else 0)))) := by
  by_cases h1 : c1 <;> by_cases h2 : c2 <;> by_cases h3 : c3 <;>
    by_cases h4 : c4 <;> by_cases h5 : c5 <;>
    simp only [h1, h2, h3, h4, h5, if_true, if_false] <;>
    norm_num [max_def]

/-- The per-keyword SQL `CASE` expression computes exactly the spec's
per-keyword contribution (maximum of the graded match indicators), for
tokenizer words. -/
theorem sqlCaseScore_eq_contribution (row : TopicsSummaryRow) (w : Str)
    (hw : goodWord w) :
    sqlCaseScore row w = keywordContribution row w := by
  have hp : '%' ∉ w := fun hm => goodChar_ne_pct _ (hw.2 _ hm) rfl
  have hu : '_' ∉ w := fun hm => goodChar_ne_us _ (hw.2 _ hm) rfl
  have harg : strToLower (trimChar '%' (wordPattern w)) = w := by
    rw [trim_wordPattern w hw.1 hw.2]
    exact strToLower_good w hw.2
  have hlow : strToLower w = w := strToLower_good w hw.2
  have hA : (strToLower row.topic = strToLower (trimChar '%' (wordPattern w))) ↔
      (strToLower row.topic = strToLower w) := by rw [harg, hlow]
  have hB : (likeMatch (strToLower row.topic)
        (strToLower (trimChar '%' (wordPattern w)) ++ ['%']) = true) ↔
      (strToLower w <+: strToLower row.topic) := by
    rw [harg, hlow]
    exact likeMatch_wordStart w hp hu (strToLower row.topic)
  have hC : (strToLower row.sub_topic = strToLower (trimChar '%' (wordPattern w))) ↔
      (strToLower row.sub_topic = strToLower w) := by rw [harg, hlow]
  have hD : ((ilike row.topic (wordPattern w) ||
        ilike row.sub_topic (wordPattern w)) = true) ↔
      (strToLower w <:+: strToLower row.topic ∨
        strToLower w <:+: strToLower row.sub_topic) := by
    rw [Bool.or_eq_true, ilike_iff_substring w hw, ilike_iff_substring w hw, hlow]
  have hE : (ilike row.name (wordPattern w) = true) ↔
      (strToLower w <:+: strToLower row.name) := by
    rw [ilike_iff_substring w hw, hlow]
  have hbody : sqlCaseScore row w =
      (if strToLower row.topic = strToLower (trimChar '%' (wordPattern w))
        then (1 : ℚ)
       else if likeMatch (strToLower row.topic)
          (strToLower (trimChar '%' (wordPattern w)) ++ ['%']) then 95/100
       else if strToLower row.sub_topic =
          strToLower (trimChar '%' (wordPattern w)) then 9/10
       else if ilike row.topic (wordPattern w) ||
          ilike row.sub_topic (wordPattern w) then 85/100
       else if ilike row.name (wordPattern w) then 7/10
       else 0) := rfl
  rw [hbody, if_chain_eq_max]
  unfold keywordContribution
  rw [if_congr hA rfl rfl, if_congr hB rfl rfl, if_congr hC rfl rfl,
    if_congr hD rfl rfl, if_congr hE rfl rfl]

/-- A spec contribution is never negative. -/
theorem keywordContribution_nonneg (row : TopicsSummaryRow) (w : Str) :
    0 ≤ keywordContribution row w := by
  unfold keywordContribution
  have s1 : (0 : ℚ) ≤
      if strToLower w <:+: strToLower row.name then 7/10 else 0 := by
    split <;> norm_num
  exact le_max_of_le_right (le_max_of_le_right (le_max_of_le_right
    (le_max_of_le_right s1)))

/-- `GREATEST` over the per-keyword `CASE` expressions is the maximum of the
spec contributions over the keywords. -/
theorem sqlGreatestScore_eq_foldr (row : TopicsSummaryRow) :
    ∀ (ws : List Str), ws ≠ [] → (∀ w ∈ ws, goodWord w) →
    sqlGreatestScore row ws =
      (ws.map (keywordContribution row)).foldr max 0 := by
  intro ws
  induction ws with
  | nil => intro h; exact absurd rfl h
  | cons w ws2 ih =>
      intro _ hg
      cases ws2 with
      | nil =>
          simp only [sqlGreatestScore, List.map_cons, List.map_nil,
            List.foldr_cons, List.foldr_nil]
          rw [sqlCaseScore_eq_contribution row w (hg w (List.mem_cons_self w []))]
          exact (max_eq_left (keywordContribution_nonneg row w)).symm
      | cons w2 ws3 =>
          rw [show sqlGreatestScore row (w :: w2 :: ws3) =
            max (sqlCaseScore row w) (sqlGreatestScore row (w2 :: ws3)) from rfl]
          rw [sqlCaseScore_eq_contribution row w
            (hg w (List.mem_cons_self w (w2 :: ws3)))]
          rw [ih (by simp) (fun x hx => hg x (List.mem_cons_of_mem w hx))]
          rfl

/-- Every character of every field produced by the splitter satisfies any
property holding of the accumulator and of the word characters of the
input. -/
theorem fieldsFuncAux_chars (P : Char → Prop) :
    ∀ (l acc : Str), (∀ c ∈ acc, P c) → (∀ c ∈ l, isWordChar c = true → P c) →
    ∀ w ∈ fieldsFuncAux acc l, ∀ c ∈ w, P c := by
  intro l
  induction l with
  | nil =>
      intro acc hacc _ w hw c hc
      simp only [fieldsFuncAux] at hw
      split at hw
      · simp at hw
      · simp only [List.mem_singleton] at hw
        subst hw
        exact hacc c (List.mem_reverse.mp hc)
  | cons a l2 ih =>
      intro acc hacc hl w hw c hc
      by_cases hwc : isWordChar a = true
      · rw [show fieldsFuncAux acc (a :: l2) = fieldsFuncAux (a :: acc) l2 by
          simp only [fieldsFuncAux, hwc, if_true]] at hw
        refine ih (a :: acc) ?_ ?_ w hw c hc
        · intro d hd
          rcases List.mem_cons.mp hd with hd | hd
          · subst hd
            exact hl d (List.mem_cons_self d l2) hwc
          · exact hacc d hd
        · exact fun d hd ht => hl d (List.mem_cons_of_mem a hd) ht
      · by_cases hemp : acc.isEmpty
        · rw [show fieldsFuncAux acc (a :: l2) = fieldsFuncAux [] l2 by
            simp [fieldsFuncAux, hwc, hemp]] at hw
          exact ih [] (by simp) (fun d hd ht => hl d (List.mem_cons_of_mem a hd) ht)
            w hw c hc
        · rw [show fieldsFuncAux acc (a :: l2) =
              acc.reverse :: fieldsFuncAux [] l2 by
            simp [fieldsFuncAux, hwc, hemp]] at hw
          rcases List.mem_cons.mp hw with hw | hw
          · subst hw
            exact hacc c (List.mem_reverse.mp hc)
          · exact ih [] (by simp)
              (fun d hd ht => hl d (List.mem_cons_of_mem a hd) ht) w hw c hc

/-- Every word character of a lowercased string is a lowercase letter or a
digit. -/
theorem strToLower_wordChar_good (q : Str) (c : Char) (hc : c ∈ strToLower q)
    (hwc : isWordChar c = true) :
    ('a' ≤ c ∧ c ≤ 'z') ∨ ('0' ≤ c ∧ c ≤ '9') := by
  obtain ⟨c2, hc2, rfl⟩ := List.mem_map.mp hc
  by_cases hAZ : 'A' ≤ c2 ∧ c2 ≤ 'Z'
  · have heq : toLowerChar c2 = Char.ofNat (c2.toNat + 32) := by
      unfold toLowerChar
      rw [if_pos hAZ]
    have hval : (c2.toNat + 32).isValidChar := by
      have hb : c2.toNat ≤ 90 := hAZ.2
      exact Or.inl (by omega)
    have hofnat : (Char.ofNat (c2.toNat + 32)).toNat = c2.toNat + 32 := by
      simp only [Char.ofNat]
      rw [dif_pos hval]
      rfl
    rw [heq]
    left
    constructor
    · show 97 ≤ (Char.ofNat (c2.toNat + 32)).toNat
      rw [hofnat]
      have ha : 65 ≤ c2.toNat := hAZ.1
      omega
    · show (Char.ofNat (c2.toNat + 32)).toNat ≤ 122
      rw [hofnat]
      have hb : c2.toNat ≤ 90 := hAZ.2
      omega
  · have heq : toLowerChar c2 = c2 := by
      unfold toLowerChar
      rw [if_neg hAZ]
    rw [heq] at hwc ⊢
    simp only [isWordChar, Bool.or_eq_true, Bool.and_eq_true,
      decide_eq_true_eq] at hwc
    rcases hwc with (h | h) | h
    · exact Or.inl h
    · exact absurd h hAZ
    · exact Or.inr h

/-- Every token the tokenizer produces is a non-empty lowercase-alphanumeric
word. -/
theorem tokenizeWords_good (q : Str) : ∀ w ∈ tokenizeWords q, goodWord w := by
  intro w hw
  simp only [tokenizeWords] at hw
  rw [List.mem_filter] at hw
  obtain ⟨hmem, hpred⟩ := hw
  simp only [Bool.and_eq_true, decide_eq_true_eq] at hpred
  constructor
  · intro hnil
    rw [hnil] at hpred
    simp at hpred
  · intro c hc
    exact fieldsFuncAux_chars
      (fun c => ('a' ≤ c ∧ c ≤ 'z') ∨ ('0' ≤ c ∧ c ≤ '9'))
      (strToLower q) [] (by simp)
      (fun d hd ht => strToLower_wordChar_good q d hd ht) w hmem c hc

/-- C6: for every keyword set as produced by the tokenizer (non-empty
lowercase-alphanumeric words — and every tokenizer output is of that form),
the SQL scoring of `SearchByWords` gives each topic row the maximum over all
keywords of that keyword's contribution, where a keyword's contribution is
the maximum of the graded indicators: 1.0 exact case-insensitive primary
label, 0.95 label prefix, 0.9 exact secondary label, 0.85 substring of
either label field, 0.7 substring of the display name, 0 otherwise —
combination is by maximum, not sum or average. -/
theorem sql_score_is_max_of_contributions (row : TopicsSummaryRow)
    (ws : List Str) (hne : ws ≠ []) (hg : ∀ w ∈ ws, goodWord w) :
    (∀ w ∈ ws, sqlCaseScore row w = keywordContribution row w) ∧
    sqlGreatestScore row ws =
      (ws.map (keywordContribution row)).foldr max 0 ∧
    (∀ q, ∀ w ∈ tokenizeWords q, goodWord w) := by
  refine ⟨?_, sqlGreatestScore_eq_foldr row ws hne hg, tokenizeWords_good⟩
  intro w hw
  exact sqlCaseScore_eq_contribution row w (hg w hw)

/-- Witness for C6 at a concrete row and keyword list. -/
theorem sql_score_is_max_of_contributions_witness :
    ((["trinity".toList, "zz9".toList] : List Str) ≠ [] ∧
      (∀ w ∈ (["trinity".toList, "zz9".toList] : List Str), goodWord w)) ∧
    sqlGreatestScore trinitySummaryRow ["trinity".toList, "zz9".toList] =
      ((["trinity".toList, "zz9".toList] : List Str).map
        (keywordContribution trinitySummaryRow)).foldr max 0 :=
  ⟨⟨by decide, by decide⟩,
   (sql_score_is_max_of_contributions trinitySummaryRow
     ["trinity".toList, "zz9".toList] (by decide) (by decide)).2.1⟩
